import Mathlib

/-!
# Time server (`JavaScript/Time_Server_Nodejs/timeServer.js`)

A shallow embedding of the Node.js time server: the padding helper `zeroFill`,
the record builder `now`, and the request handler passed to `http.createServer`.

Modelling choices.

* The ambient clock read by `new Date()` is an explicit argument, a `LocalTime`
  holding what the `Date` getters return in local time.
* The argument of `zeroFill` is a JavaScript Number. The non-negative integer
  Numbers are modelled by the natural numbers that are binary64 values
  (`IsNumber`), and the string concatenation `'' + i` by `numberToString`, the
  algorithm of ECMA-262 `Number::toString` on such values: the shortest decimal
  that rounds to the Number, written in full up to 21 digits and in exponent
  form beyond. It prints the integers below `2^53` digit for digit; it prints
  `2^60` as `1152921504606847000` and `10^21` as `1e+21`.
* The year stored by `now` is what `getFullYear` returns, a calendar year of at
  most six digits, which prints digit for digit.
* `res.writeHead` and `res.end` are modelled by the `Response` value they build:
  status code, the headers given by the handler, and the body written.
-/

namespace TimeServer

/-! ## Data model -/

/-- What the getters of a `Date` object return in local time. -/
structure LocalTime where
  getFullYear : Int
  getMonth : Nat
  getDate : Nat
  getHours : Nat
  getMinutes : Nat
  getSeconds : Nat
  getMilliseconds : Nat
  deriving DecidableEq, Repr

/-- The two kinds of property values stored in the record built by `now`. -/
inductive JSValue where
  | num (n : Int)
  | str (s : String)
  deriving DecidableEq, Repr

/-- A plain JavaScript object: its own properties in insertion order. -/
abbrev JSObject := List (String × JSValue)

/-- The parts of `http.IncomingMessage` a handler can look at. -/
structure Request where
  method : String
  url : String
  headers : List (String × String)
  body : String
  deriving DecidableEq, Repr

/-- What the handler sends: `writeHead(status, headers)` then `end(body)`. -/
structure Response where
  statusCode : Nat
  headers : List (String × String)
  body : String
  deriving DecidableEq, Repr

/-! ## Number to string -/

/-- The number of times `v` is halved before it drops below `2^53`: the binary
exponent of the 53-bit significand of `v`. -/
def shiftFor : Nat → Nat → Nat
  | 0, _ => 0
  | fuel + 1, v => if v < 2 ^ 53 then 0 else shiftFor fuel (v / 2) + 1

/-- The Number value of a non-negative integer `v`: the binary64 value nearest
to `v`, ties to the even significand. Integers that round past the largest finite
Number give `2^1024` or more, which is no finite Number. -/
def toNumber (v : Nat) : Nat :=
  let e := shiftFor v v
  let q := v / 2 ^ e
  let r := v % 2 ^ e
  if 2 * r < 2 ^ e then q * 2 ^ e
  else if 2 ^ e < 2 * r then (q + 1) * 2 ^ e
  else if q % 2 = 0 then q * 2 ^ e
  else (q + 1) * 2 ^ e

/-- A non-negative integer that is a finite Number. -/
def IsNumber (x : Nat) : Prop :=
  toNumber x = x ∧ x < 2 ^ 1024

instance (x : Nat) : Decidable (IsNumber x) := by
  unfold IsNumber
  infer_instance

/-- Of the two multiples `lo ≤ x < hi` of a power of ten around `x`, the one whose
Number value is `x`; when both are, the one closer to `x`, and at equal distance
the one with the even digit string (`s` is the digit string of `lo`). -/
def pickCandidate (x lo hi s : Nat) : Option Nat :=
  if toNumber lo = x then
    if toNumber hi = x then
      if x - lo < hi - x then some lo
      else if hi - x < x - lo then some hi
      else if s % 2 = 0 then some lo
      else some hi
    else some lo
  else if toNumber hi = x then some hi
  else none

/-- The search for the shortest digit string among the decimals with as many digits
as `x`: multiples of `10^z` for `z` from the given one down to `0`, the first
power of ten with a multiple whose Number value is `x` wins. -/
def searchFrom : Nat → Nat → Nat
  | 0, x => x
  | z + 1, x =>
    match pickCandidate x (x / 10 ^ (z + 1) * 10 ^ (z + 1))
        (x / 10 ^ (z + 1) * 10 ^ (z + 1) + 10 ^ (z + 1)) (x / 10 ^ (z + 1)) with
    | some v => v
    | none => searchFrom z x

/-- The decimal `s × 10^(n-k)` of `Number::toString` for the Number `x`: the
integer with the fewest significant digits `k` whose Number value is `x`. It is
the next power of ten when that rounds to `x`, and otherwise has as many digits
as `x`. -/
def shortestDecimal (x : Nat) : Nat :=
  if toNumber (10 ^ (toString x).length) = x then 10 ^ (toString x).length
  else searchFrom ((toString x).length - 1) x

/-- Dropping trailing zeros: the digit string `s` of the decimal `v`. -/
def stripZeros : Nat → Nat → Nat
  | 0, v => v
  | fuel + 1, v => if v % 10 = 0 then stripZeros fuel (v / 10) else v

/-- The exponent form of `Number::toString` for digits `s` and `n > 21`: one
digit, then a point and the other digits if there are any, then `e+` and `n - 1`. -/
def exponentForm (s n : Nat) : String :=
  match (toString s).data with
  | [] => ""
  | [c] => String.mk [c] ++ "e+" ++ toString (n - 1)
  | c :: cs => String.mk (c :: '.' :: cs) ++ "e+" ++ toString (n - 1)

/-- ECMA-262 `Number::toString(x, 10)` for a non-negative integer Number `x`:
`0` prints as `0`; otherwise the shortest decimal that rounds to `x`, written
in full when it has at most 21 digits and in exponent form when it has more. -/
def numberToString (x : Nat) : String :=
  if x = 0 then "0"
  else if (toString (shortestDecimal x)).length ≤ 21 then toString (shortestDecimal x)
  else exponentForm
    (stripZeros (toString (shortestDecimal x)).length (shortestDecimal x))
    (toString (shortestDecimal x)).length

/-! ## `zeroFill` and `now` -/

/-- Source: `function zeroFill(i) { return (i < 10 ? '0' : '') + i; }`, the
argument a non-negative integer Number. -/
def zeroFill (i : Nat) : String :=
  (if i < 10 then "0" else "") ++ numberToString i

/-- Source: `function now()`, with the `Date` it creates passed in as `d`. -/
def now (d : LocalTime) : JSObject :=
  [ ("year", JSValue.num d.getFullYear),
    ("month", JSValue.str (zeroFill (d.getMonth + 1))),
    ("date", JSValue.str (zeroFill d.getDate)),
    ("hour", JSValue.str (zeroFill d.getHours)),
    ("minute", JSValue.str (zeroFill d.getMinutes)) ]

/-! ## `JSON.stringify` on flat objects -/

/-- One code unit of `QuoteJSONString` (ECMA-262): the short escapes, the
`\u00xx` form for the other control characters, everything else verbatim. -/
def jsonEscapeChar (c : Char) : String :=
  if c = '\x08' then "\\b"
  else if c = '\x09' then "\\t"
  else if c = '\x0a' then "\\n"
  else if c = '\x0c' then "\\f"
  else if c = '\x0d' then "\\r"
  else if c = '\x22' then "\\\x22"
  else if c = '\x5c' then "\\\\"
  else if c.toNat < 32 then
    "\\u00" ++ String.mk [Nat.digitChar (c.toNat / 16), Nat.digitChar (c.toNat % 16)]
  else String.singleton c

/-- The abstract operation `QuoteJSONString`: the escaped characters between double
quotes. -/
def quoteJSONString (s : String) : String :=
  "\x22" ++ String.join (s.data.map jsonEscapeChar) ++ "\x22"

/-- The abstract operation `SerializeJSONProperty` for the two value kinds of `JSValue`:
an integer in the range of calendar years prints digit for digit, a String is quoted. -/
def serializeJSONProperty : JSValue → String
  | JSValue.num n => toString n
  | JSValue.str s => quoteJSONString s

/-- The call `JSON.stringify(o)` without indentation, for a flat object `o`:
`{"k1":v1,"k2":v2,...}` in property order. -/
def JSON.stringify (o : JSObject) : String :=
  "\x7b" ++ ",".intercalate
      (o.map (fun p => quoteJSONString p.1 ++ ":" ++ serializeJSONProperty p.2)) ++ "\x7d"

/-! ## The request handler -/

/-- The callback given to `http.createServer`. `result` stays `undefined`
(here `none`) unless the request target is the one route; an object is always
truthy, so `if (result)` is the test for `some`. -/
def handler (req : Request) (d : LocalTime) : Response :=
  let result : Option JSObject :=
    if req.url = "/api/currenttime" then some (now d) else none
  match result with
  | some r =>
    { statusCode := 200,
      headers := [("Content-Type", "application/json")],
      body := JSON.stringify r ++ "\n" }
  | none =>
    { statusCode := 404, headers := [], body := "" }

/-! ## Specification-side notions -/

/-- Reading a string as a decimal number: defined on non-empty strings of
decimal digits, most significant digit first. -/
def parseDecimal (s : String) : Option Nat :=
  if s.data ≠ [] ∧ s.data.all Char.isDigit = true then
    some (s.data.foldl (fun n c => n * 10 + (c.toNat - '0'.toNat)) 0)
  else none

/-- Reading a printed Number back as the decimal it denotes: the digits before `e`
(the point skipped) times ten to the power of the exponent after `e+`, less the
number of digits after the point. A string without exponent or point is read as
its digits. -/
def readNumber (s : String) : Nat :=
  let mantissa := s.data.takeWhile (fun c => c != 'e')
  let exponent := (s.data.dropWhile (fun c => c != 'e')).drop 2
  let value := fun (l : List Char) => l.foldl (fun n c => n * 10 + (c.toNat - '0'.toNat)) 0
  value (mantissa.filter Char.isDigit) *
    10 ^ (value exponent - ((mantissa.dropWhile (fun c => c != '.')).length - 1))

/-- The decimal representation of `n`, most significant digit first, built from
the digit list of `Nat.digits`. -/
def decimalRepr (n : Nat) : String :=
  String.mk ((Nat.digits 10 n).reverse.map Nat.digitChar)

/-- A two-character field: tens digit then units digit. -/
def twoDigits (n : Nat) : String :=
  String.mk [Nat.digitChar (n / 10), Nat.digitChar (n % 10)]

/-- A valid local clock reading, as the `Date` getters guarantee it. -/
def LocalTime.Valid (d : LocalTime) : Prop :=
  d.getMonth ≤ 11 ∧ 1 ≤ d.getDate ∧ d.getDate ≤ 31 ∧ d.getHours ≤ 23 ∧ d.getMinutes ≤ 59

instance (d : LocalTime) : Decidable d.Valid := by
  unfold LocalTime.Valid
  infer_instance

/-- Two clock readings that agree down to the minute. -/
def SameMinute (d e : LocalTime) : Prop :=
  d.getFullYear = e.getFullYear ∧ d.getMonth = e.getMonth ∧ d.getDate = e.getDate ∧
    d.getHours = e.getHours ∧ d.getMinutes = e.getMinutes

instance (d e : LocalTime) : Decidable (SameMinute d e) := by
  unfold SameMinute
  infer_instance

/-- An integer that prints as exactly four decimal digits. -/
def isFourDigit (y : Int) : Bool :=
  (toString y).data.length == 4 && (toString y).data.all Char.isDigit

/-- The characters `Number::toString` writes for a non-negative integer: decimal
digits, the decimal point, and the `e+` of the exponent form. -/
def IsNumberChar (c : Char) : Prop :=
  c.isDigit = true ∨ c = '.' ∨ c = 'e' ∨ c = '+'

/-- The value stored under key `k`, if any. -/
def JSObject.get? (o : JSObject) (k : String) : Option JSValue :=
  (o.find? (fun p => p.1 == k)).map Prod.snd

/-! ## Number to string: helper lemmas -/

theorem shiftFor_pred (fuel : Nat) : ∀ (v e : Nat), shiftFor fuel v = e + 1 →
    2 ^ 53 ≤ v / 2 ^ e := by
  induction fuel with
  | zero => intro v e h; simp [shiftFor] at h
  | succ f ih =>
    intro v e h
    unfold shiftFor at h
    by_cases hv : v < 2 ^ 53
    · rw [if_pos hv] at h
      omega
    · rw [if_neg hv] at h
      have he : shiftFor f (v / 2) = e := by omega
      cases e with
      | zero => simpa using Nat.le_of_not_lt hv
      | succ k =>
        have := ih (v / 2) k he
        rwa [Nat.div_div_eq_div_mul, ← Nat.pow_succ'] at this

theorem toNumber_small (v : Nat) (h : v < 2 ^ 53) : toNumber v = v := by
  have he : shiftFor v v = 0 := by
    cases v with
    | zero => rfl
    | succ k => unfold shiftFor; rw [if_pos h]
  simp [toNumber, he, Nat.mod_one]

theorem toNumber_large (v : Nat) (h : 2 ^ 53 ≤ v) : 2 ^ 53 ≤ toNumber v := by
  obtain ⟨k, hk⟩ : ∃ k, shiftFor v v = k + 1 := by
    cases v with
    | zero => simp at h
    | succ m =>
      unfold shiftFor
      rw [if_neg (by omega)]
      exact ⟨_, rfl⟩
  have hq := shiftFor_pred v v k hk
  have hdiv : v / 2 ^ (k + 1) = v / 2 ^ k / 2 := by
    rw [Nat.pow_succ, Nat.div_div_eq_div_mul]
  have hq2 : 2 ^ 52 ≤ v / 2 ^ (k + 1) := by
    rw [hdiv]
    omega
  have hp : 2 ≤ 2 ^ (k + 1) := by
    have : 2 ^ 1 ≤ 2 ^ (k + 1) := Nat.pow_le_pow_right (by decide) (by omega)
    simpa using this
  have hbase : 2 ^ 53 ≤ v / 2 ^ (k + 1) * 2 ^ (k + 1) := by
    calc 2 ^ 53 = 2 ^ 52 * 2 := by norm_num
      _ ≤ v / 2 ^ (k + 1) * 2 ^ (k + 1) := Nat.mul_le_mul hq2 hp
  have hmono : v / 2 ^ (k + 1) * 2 ^ (k + 1) ≤ (v / 2 ^ (k + 1) + 1) * 2 ^ (k + 1) :=
    Nat.mul_le_mul_right _ (by omega)
  simp only [toNumber, hk]
  split_ifs <;> omega

theorem toNumber_eq_safe (v x : Nat) (hx : x < 2 ^ 53) : toNumber v = x ↔ v = x := by
  constructor
  · intro h
    by_cases hv : v < 2 ^ 53
    · rwa [toNumber_small v hv] at h
    · have := toNumber_large v (by omega)
      omega
  · rintro rfl
    exact toNumber_small v hx
/-! ## Decimal digits: helper lemmas -/

theorem toDigitsCore_eq (fuel : Nat) : ∀ (n : Nat) (acc : List Char), 0 < n → n < fuel →
    Nat.toDigitsCore 10 fuel n acc = (Nat.digits 10 n).reverse.map Nat.digitChar ++ acc := by
  induction fuel with
  | zero => intro n acc _ h; omega
  | succ f ih =>
    intro n acc hpos hlt
    have hd : Nat.digits 10 n = n % 10 :: Nat.digits 10 (n / 10) :=
      Nat.digits_def' (by decide) hpos
    simp only [Nat.toDigitsCore]
    by_cases h0 : n / 10 = 0
    · simp [h0, hd]
    · rw [if_neg h0, ih (n / 10) _ (Nat.pos_of_ne_zero h0) (by omega), hd]
      simp

theorem toDigits_eq (n : Nat) (h : 0 < n) :
    Nat.toDigits 10 n = (Nat.digits 10 n).reverse.map Nat.digitChar := by
  simp [Nat.toDigits, toDigitsCore_eq (n + 1) n [] h (by omega)]

theorem toString_eq_decimalRepr (n : Nat) (h : 0 < n) : toString n = decimalRepr n := by
  show Nat.repr n = _
  simp [Nat.repr, decimalRepr, toDigits_eq n h, List.asString]

theorem digitChar_toNat (k : Nat) (h : k < 10) : (Nat.digitChar k).toNat - '0'.toNat = k := by
  interval_cases k <;> decide

theorem digitChar_isDigit (k : Nat) (h : k < 10) : (Nat.digitChar k).isDigit = true := by
  interval_cases k <;> decide

theorem digitChar_ne_zero (k : Nat) (h : k < 10) (h0 : k ≠ 0) : Nat.digitChar k ≠ '0' := by
  interval_cases k <;> first | contradiction | decide


theorem parse_digits (l : List Nat) (h : ∀ d ∈ l, d < 10) :
    (l.reverse.map Nat.digitChar).foldl (fun n c => n * 10 + (c.toNat - '0'.toNat)) 0
      = Nat.ofDigits 10 l := by
  induction l with
  | nil => simp
  | cons d t ih =>
    have hd : d < 10 := h d (List.mem_cons_self d t)
    have ht : ∀ e ∈ t, e < 10 := fun e he => h e (List.mem_cons_of_mem d he)
    simp only [List.reverse_cons, List.map_append, List.map_cons, List.map_nil,
      List.foldl_append, List.foldl_cons, List.foldl_nil, ih ht, digitChar_toNat d hd,
      Nat.ofDigits_cons]
    omega

theorem decimalRepr_all_isDigit (n : Nat) : (decimalRepr n).data.all Char.isDigit = true := by
  simp only [decimalRepr, List.all_eq_true, List.mem_map, List.mem_reverse]
  rintro c ⟨d, hd, rfl⟩
  exact digitChar_isDigit d (Nat.digits_lt_base (by decide) hd)

theorem decimalRepr_ne_nil (n : Nat) (h : 0 < n) : (decimalRepr n).data ≠ [] := by
  simp [decimalRepr, Nat.digits_eq_nil_iff_eq_zero]
  omega

theorem parseDecimal_decimalRepr (n : Nat) (h : 0 < n) : parseDecimal (decimalRepr n) = some n := by
  unfold parseDecimal
  rw [if_pos ⟨decimalRepr_ne_nil n h, decimalRepr_all_isDigit n⟩]
  simp only [decimalRepr]
  rw [parse_digits _ (fun d hd => Nat.digits_lt_base (by decide) hd), Nat.ofDigits_digits]

theorem decimalRepr_head (n : Nat) (h : 0 < n) : (decimalRepr n).data.head? ≠ some '0' := by
  have hne : Nat.digits 10 n ≠ [] := Nat.digits_ne_nil_iff_ne_zero.mpr (by omega)
  have hlast := Nat.getLast_digit_ne_zero 10 (Nat.pos_iff_ne_zero.mp h)
  have hmem := List.getLast_mem hne
  have hlt : (Nat.digits 10 n).getLast hne < 10 := Nat.digits_lt_base (by decide) hmem
  simp only [decimalRepr, List.head?_map, List.head?_reverse, List.getLast?_eq_getLast _ hne,
    Option.map_some']
  intro hc
  exact digitChar_ne_zero _ hlt hlast (Option.some.inj hc)

theorem toString_all_isDigit (n : Nat) : (toString n).data.all Char.isDigit = true := by
  by_cases h : n = 0
  · subst h
    decide
  · rw [toString_eq_decimalRepr n (by omega)]
    exact decimalRepr_all_isDigit n

theorem toString_length (n : Nat) (h : 0 < n) :
    (toString n).length = (Nat.digits 10 n).length := by
  rw [toString_eq_decimalRepr n h]
  simp [decimalRepr, String.length]

theorem lt_pow_toString_length (n : Nat) : n < 10 ^ (toString n).length := by
  by_cases h : n = 0
  · subst h
    decide
  · rw [toString_length n (by omega)]
    exact Nat.lt_base_pow_length_digits (by decide)

theorem parseDecimal_toString (n : Nat) : parseDecimal (toString n) = some n := by
  by_cases h : n = 0
  · subst h
    decide
  · rw [toString_eq_decimalRepr n (by omega)]
    exact parseDecimal_decimalRepr n (by omega)

/-! ## Number to string on the safe integers -/

theorem pickCandidate_safe (x lo p s : Nat) (hx : x < 2 ^ 53) (hp : x < lo + p) :
    pickCandidate x lo (lo + p) s = some x ∨ pickCandidate x lo (lo + p) s = none := by
  have hhi : ¬ toNumber (lo + p) = x := by
    rw [toNumber_eq_safe _ _ hx]
    omega
  unfold pickCandidate
  rw [if_neg hhi, if_neg hhi]
  by_cases hl : toNumber lo = x
  · rw [if_pos hl]
    left
    rw [(toNumber_eq_safe _ _ hx).mp hl]
  · rw [if_neg hl]
    right
    trivial

theorem searchFrom_safe (z x : Nat) (hx : x < 2 ^ 53) : searchFrom z x = x := by
  induction z with
  | zero => rfl
  | succ k ih =>
    have hpos : 0 < 10 ^ (k + 1) := Nat.pow_pos (by decide)
    have hhi : x < x / 10 ^ (k + 1) * 10 ^ (k + 1) + 10 ^ (k + 1) := by
      have := Nat.lt_div_mul_add (a := x) hpos
      omega
    unfold searchFrom
    rcases pickCandidate_safe x _ _ (x / 10 ^ (k + 1)) hx hhi with h | h
    · rw [h]
    · rw [h]
      exact ih

theorem shortestDecimal_safe (x : Nat) (hx : x < 2 ^ 53) : shortestDecimal x = x := by
  have hne : ¬ toNumber (10 ^ (toString x).length) = x := by
    rw [toNumber_eq_safe _ _ hx]
    have := lt_pow_toString_length x
    omega
  unfold shortestDecimal
  rw [if_neg hne]
  exact searchFrom_safe _ x hx

theorem numberToString_safe (x : Nat) (hx : x < 2 ^ 53) : numberToString x = toString x := by
  unfold numberToString
  by_cases h0 : x = 0
  · subst h0
    rfl
  · rw [if_neg h0, shortestDecimal_safe x hx]
    have hlen : (toString x).length ≤ 21 := by
      have h16 : (Nat.repr x).length ≤ 16 :=
        Nat.repr_length x 16 (by decide) (by norm_num at hx ⊢; omega)
      have : (toString x).length = (Nat.repr x).length := rfl
      omega
    rw [if_pos hlen]

theorem zeroFill_safe (i : Nat) (h : i < 2 ^ 53) :
    zeroFill i = (if i < 10 then "0" else "") ++ toString i := by
  unfold zeroFill
  rw [numberToString_safe i h]

theorem zeroFill_small (i : Nat) (h : i < 10) : zeroFill i = String.mk ['0', Nat.digitChar i] := by
  rw [zeroFill_safe i (by norm_num; omega)]
  interval_cases i <;> decide

theorem zeroFill_large (i : Nat) (h : 10 ≤ i) (hs : i < 2 ^ 53) : zeroFill i = decimalRepr i := by
  rw [zeroFill_safe i hs, if_neg (by omega), toString_eq_decimalRepr i (by omega)]
  rfl

theorem zeroFill_twoDigits (n : Nat) (h : n < 100) : zeroFill n = twoDigits n := by
  rw [zeroFill_safe n (by norm_num; omega)]
  interval_cases n <;> decide

theorem parseDecimal_zeroFill (i : Nat) (hs : i < 2 ^ 53) : parseDecimal (zeroFill i) = some i := by
  by_cases h : i < 10
  · rw [zeroFill_safe i hs]
    interval_cases i <;> decide
  · rw [zeroFill_large i (by omega) hs]
    exact parseDecimal_decimalRepr i (by omega)

/-! ## The characters of a printed Number -/

theorem isNumberChar_of_digits (l : List Char) (h : l.all Char.isDigit = true) :
    ∀ c ∈ l, IsNumberChar c :=
  fun c hc => Or.inl (List.all_eq_true.mp h c hc)

theorem exponentForm_chars (s n : Nat) : ∀ c ∈ (exponentForm s n).data, IsNumberChar c := by
  have hs := isNumberChar_of_digits _ (toString_all_isDigit s)
  have he := isNumberChar_of_digits _ (toString_all_isDigit (n - 1))
  unfold exponentForm
  generalize (toString s).data = l at hs
  match l, hs with
  | [], _ => intro c hc; simp at hc
  | [a], hs =>
    intro c hc
    simp only [String.data_append, List.mem_append, List.mem_singleton] at hc
    rcases hc with (rfl | hc) | hc
    · exact hs _ (List.mem_singleton_self _)
    · have : c = 'e' ∨ c = '+' := by simpa using hc
      rcases this with rfl | rfl
      · exact Or.inr (Or.inr (Or.inl rfl))
      · exact Or.inr (Or.inr (Or.inr rfl))
    · exact he c hc
  | a :: b :: t, hs =>
    intro c hc
    simp only [String.data_append, List.mem_append, List.mem_cons] at hc
    rcases hc with ((rfl | rfl | hc) | hc) | hc
    · exact hs _ (List.mem_cons_self _ _)
    · exact Or.inr (Or.inl rfl)
    · exact hs _ (List.mem_cons_of_mem _ (List.mem_cons.mpr hc))
    · have : c = 'e' ∨ c = '+' := by simpa using hc
      rcases this with rfl | rfl
      · exact Or.inr (Or.inr (Or.inl rfl))
      · exact Or.inr (Or.inr (Or.inr rfl))
    · exact he c hc

theorem numberToString_chars (x : Nat) : ∀ c ∈ (numberToString x).data, IsNumberChar c := by
  unfold numberToString
  split_ifs
  · intro c hc
    have : c = '0' := by simpa using hc
    subst this
    exact Or.inl (by decide)
  · exact isNumberChar_of_digits _ (toString_all_isDigit _)
  · exact exponentForm_chars _ _

theorem zeroFill_chars (i : Nat) : ∀ c ∈ (zeroFill i).data, IsNumberChar c := by
  intro c hc
  unfold zeroFill at hc
  rw [String.data_append, List.mem_append] at hc
  rcases hc with hc | hc
  · split_ifs at hc
    · have : c = '0' := by simpa using hc
      subst this
      exact Or.inl (by decide)
    · simp at hc
  · exact numberToString_chars i c hc

/-! ## Reading a printed Number back -/

theorem toNumber_pickCandidate (x lo hi s v : Nat) (h : pickCandidate x lo hi s = some v) :
    toNumber v = x := by
  unfold pickCandidate at h
  split_ifs at h with h1 h2 h3 h4 h5 h6 <;> (cases h; assumption)

theorem toNumber_searchFrom (z x : Nat) (hx : toNumber x = x) : toNumber (searchFrom z x) = x := by
  induction z with
  | zero => exact hx
  | succ k ih =>
    unfold searchFrom
    split
    · next v hv => exact toNumber_pickCandidate _ _ _ _ _ hv
    · exact ih

theorem toNumber_shortestDecimal (x : Nat) (hx : toNumber x = x) :
    toNumber (shortestDecimal x) = x := by
  unfold shortestDecimal
  split_ifs with h
  · exact h
  · exact toNumber_searchFrom _ x hx

theorem value_toString (n : Nat) :
    (toString n).data.foldl (fun n c => n * 10 + (c.toNat - '0'.toNat)) 0 = n := by
  have h := parseDecimal_toString n
  unfold parseDecimal at h
  split_ifs at h
  exact Option.some.inj h

theorem takeWhile_append_stop {p : Char → Bool} (l r : List Char) (a : Char)
    (hl : ∀ c ∈ l, p c = true) (ha : p a = false) :
    (l ++ a :: r).takeWhile p = l ∧ (l ++ a :: r).dropWhile p = a :: r := by
  induction l with
  | nil => simp [List.takeWhile, List.dropWhile, ha]
  | cons c t ih =>
    have hc : p c = true := hl c (List.mem_cons_self c t)
    have := ih (fun d hd => hl d (List.mem_cons_of_mem c hd))
    simp [List.takeWhile, List.dropWhile, hc, this.1, this.2]

theorem takeWhile_all {p : Char → Bool} (l : List Char) (hl : ∀ c ∈ l, p c = true) :
    l.takeWhile p = l ∧ l.dropWhile p = [] := by
  induction l with
  | nil => simp
  | cons c t ih =>
    have hc : p c = true := hl c (List.mem_cons_self c t)
    have := ih (fun d hd => hl d (List.mem_cons_of_mem c hd))
    simp [List.takeWhile, List.dropWhile, hc, this.1, this.2]

theorem isDigit_ne (c : Char) (h : c.isDigit = true) : (c != 'e') = true ∧ (c != '.') = true := by
  have hb : 48 ≤ c.toNat ∧ c.toNat ≤ 57 := by
    simp only [Char.isDigit, Bool.and_eq_true, decide_eq_true_eq] at h
    exact ⟨h.1, h.2⟩
  constructor
  · simp only [bne_iff_ne, ne_eq]
    rintro rfl
    revert hb
    decide
  · simp only [bne_iff_ne, ne_eq]
    rintro rfl
    revert hb
    decide

theorem readNumber_digits (l : List Char) (h : l.all Char.isDigit = true) :
    readNumber (String.mk l) = l.foldl (fun n c => n * 10 + (c.toNat - '0'.toNat)) 0 := by
  have hall := List.all_eq_true.mp h
  have he := takeWhile_all (p := fun c => c != 'e') l (fun c hc => (isDigit_ne c (hall c hc)).1)
  have hp := takeWhile_all (p := fun c => c != '.') l (fun c hc => (isDigit_ne c (hall c hc)).2)
  have hf : l.filter Char.isDigit = l := List.filter_eq_self.mpr hall
  simp [readNumber, he.1, he.2, hp.2, hf]

theorem readNumber_toString (n : Nat) : readNumber (toString n) = n := by
  have h := readNumber_digits (toString n).data (toString_all_isDigit n)
  rw [value_toString] at h
  exact h

theorem stripZeros_spec (fuel : Nat) : ∀ v : Nat, 0 < v →
    0 < stripZeros fuel v ∧ ∃ t, v = stripZeros fuel v * 10 ^ t := by
  induction fuel with
  | zero => intro v hv; exact ⟨hv, 0, by simp [stripZeros]⟩
  | succ f ih =>
    intro v hv
    unfold stripZeros
    split_ifs with h
    · obtain ⟨hpos, t, ht⟩ := ih (v / 10) (by omega)
      refine ⟨hpos, t + 1, ?_⟩
      have hv10 : v = v / 10 * 10 := by omega
      calc v = v / 10 * 10 := hv10
        _ = stripZeros f (v / 10) * 10 ^ t * 10 := by rw [← ht]
        _ = stripZeros f (v / 10) * 10 ^ (t + 1) := by rw [Nat.pow_succ, Nat.mul_assoc]
    · exact ⟨hv, 0, by simp⟩

theorem toString_length_mul_pow (s t : Nat) (hs : 0 < s) :
    (toString (s * 10 ^ t)).length = (toString s).length + t := by
  have hpos : 0 < s * 10 ^ t := Nat.mul_pos hs (Nat.pow_pos (by decide))
  rw [toString_length _ hpos, toString_length _ hs, Nat.mul_comm,
    Nat.digits_base_pow_mul (by decide) hs]
  simp
  omega

theorem readNumber_exponentForm (s n : Nat) :
    readNumber (exponentForm s n) = s * 10 ^ (n - 1 - ((toString s).length - 1)) := by
  have hval := value_toString s
  have hE : (toString (n - 1)).data.foldl (fun n c => n * 10 + (c.toNat - '0'.toNat)) 0
      = n - 1 := value_toString (n - 1)
  have hdig := List.all_eq_true.mp (toString_all_isDigit s)
  have hne : (toString s).data ≠ [] := by
    by_cases h0 : s = 0
    · subst h0
      decide
    · rw [toString_eq_decimalRepr s (by omega)]
      exact decimalRepr_ne_nil s (by omega)
  have hlen : (toString s).length = (toString s).data.length := rfl
  unfold exponentForm
  rw [hlen]
  generalize (toString s).data = l at hval hdig hne
  generalize toString (n - 1) = F at hE
  match l, hne, hval, hdig with
  | [a], _, hval, hdig =>
    have ha := isDigit_ne a (hdig a (List.mem_singleton_self a))
    have hsplit := takeWhile_append_stop (p := fun c => c != 'e') [a] ('+' :: F.data) 'e'
      (fun c hc => by rw [List.mem_singleton.mp hc]; exact ha.1) (by decide)
    have hdata : (String.mk [a] ++ "e+" ++ F).data = [a] ++ 'e' :: '+' :: F.data := by
      simp [String.data_append]
    have hfil : [a].filter Char.isDigit = [a] :=
      List.filter_eq_self.mpr hdig
    have hdot := takeWhile_all (p := fun c => c != '.') [a]
      (fun c hc => by rw [List.mem_singleton.mp hc]; exact ha.2)
    show readNumber (String.mk [a] ++ "e+" ++ F) = _
    simp only [readNumber, hdata, hsplit.1, hsplit.2, hfil, hdot.2, List.drop_succ_cons,
      List.drop_zero, hval, hE, List.length_nil, List.length_singleton]
  | a :: b :: t, _, hval, hdig =>
    have ha := isDigit_ne a (hdig a (List.mem_cons_self a _))
    have hrest : ∀ c ∈ b :: t, (c != 'e') = true ∧ (c != '.') = true :=
      fun c hc => isDigit_ne c (hdig c (List.mem_cons_of_mem a hc))
    have hsplit := takeWhile_append_stop (p := fun c => c != 'e') (a :: '.' :: b :: t)
      ('+' :: F.data) 'e'
      (fun c hc => by
        rcases List.mem_cons.mp hc with rfl | hc
        · exact ha.1
        · rcases List.mem_cons.mp hc with rfl | hc
          · decide
          · exact (hrest c hc).1) (by decide)
    have hdata : (String.mk (a :: '.' :: b :: t) ++ "e+" ++ F).data
        = (a :: '.' :: b :: t) ++ 'e' :: '+' :: F.data := by
      simp [String.data_append]
    have hfil : (a :: '.' :: b :: t).filter Char.isDigit = a :: b :: t := by
      have h1 : (b :: t).filter Char.isDigit = b :: t :=
        List.filter_eq_self.mpr (fun c hc => hdig c (List.mem_cons_of_mem a hc))
      have h2 : a.isDigit = true := hdig a (List.mem_cons_self a _)
      have h3 : '.'.isDigit = false := by decide
      rw [List.filter_cons_of_pos h2, List.filter_cons_of_neg (by simp [h3]), h1]
    have hdot : (a :: '.' :: b :: t).dropWhile (fun c => c != '.') = '.' :: b :: t := by
      have := takeWhile_append_stop (p := fun c => c != '.') [a] (b :: t) '.'
        (fun c hc => by rw [List.mem_singleton.mp hc]; exact ha.2) (by decide)
      simpa using this.2
    show readNumber (String.mk (a :: '.' :: b :: t) ++ "e+" ++ F) = _
    simp only [readNumber, hdata, hsplit.1, hsplit.2, hfil, hdot, List.drop_succ_cons,
      List.drop_zero, hval, hE, List.length_cons]

theorem readNumber_numberToString (x : Nat) : readNumber (numberToString x) = shortestDecimal x := by
  unfold numberToString
  split_ifs with h0 hlen
  · subst h0
    decide
  · exact readNumber_toString _
  · generalize hv : shortestDecimal x = v at hlen ⊢
    have hvpos : 0 < v := by
      rcases Nat.eq_zero_or_pos v with h | h
      · subst h
        exact absurd (by decide : (toString 0).length ≤ 21) hlen
      · exact h
    obtain ⟨hspos, t, ht⟩ := stripZeros_spec (toString v).length v hvpos
    generalize stripZeros (toString v).length v = s at hspos ht
    have hn : (toString v).length = (toString s).length + t := by
      rw [ht]
      exact toString_length_mul_pow s t hspos
    have hk : 0 < (toString s).length := by
      rw [toString_length s hspos]
      exact List.length_pos.mpr (Nat.digits_ne_nil_iff_ne_zero.mpr (by omega))
    rw [readNumber_exponentForm, hn]
    have : (toString s).length + t - 1 - ((toString s).length - 1) = t := by omega
    rw [this]
    exact ht.symm

theorem readNumber_zeroFill (i : Nat) : readNumber (zeroFill i) = shortestDecimal i := by
  by_cases h : i < 10
  · rw [zeroFill_small i h, shortestDecimal_safe i (by norm_num; omega)]
    interval_cases i <;> decide
  · have : zeroFill i = numberToString i := by
      unfold zeroFill
      rw [if_neg h]
      apply String.ext
      simp [String.data_append]
    rw [this]
    exact readNumber_numberToString i

/-! ## `zeroFill` -/

theorem isNumber_two_pow_sixty : IsNumber (2 ^ 60) :=
  ⟨by decide, by norm_num⟩

theorem isNumber_ten_pow_twenty_one : IsNumber (10 ^ 21) :=
  ⟨by decide, by norm_num⟩

/-- C3, as stated, fails: `2^60` and `10^21` are non-negative integer Numbers of at least
10, and `zeroFill` gives `1152921504606847000` for the first and `1e+21` for the second,
neither of them the decimal representation of the integer. -/
theorem zeroFill_large_counterexample :
    (IsNumber (2 ^ 60) ∧ 10 ≤ 2 ^ 60 ∧ zeroFill (2 ^ 60) = "1152921504606847000" ∧
      zeroFill (2 ^ 60) ≠ decimalRepr (2 ^ 60)) ∧
    (IsNumber (10 ^ 21) ∧ 10 ≤ 10 ^ 21 ∧ zeroFill (10 ^ 21) = "1e+21" ∧
      zeroFill (10 ^ 21) ≠ decimalRepr (10 ^ 21)) := by
  rw [← toString_eq_decimalRepr (2 ^ 60) (by decide),
    ← toString_eq_decimalRepr (10 ^ 21) (by decide)]
  exact ⟨⟨isNumber_two_pow_sixty, by decide, by decide, by decide⟩,
    ⟨isNumber_ten_pow_twenty_one, by decide, by decide, by decide⟩⟩

/-- C3, amended: for every non-negative integer `i` below `2^53` (the safe integers), if
`i < 10` then `zeroFill i` is exactly two characters long and starts with `0` (it is `0`
followed by the digit of `i`); if `10 ≤ i` then `zeroFill i` is the decimal representation
of `i`, which has no leading zero. -/
theorem zeroFill_padding (i : Nat) (hs : i < 2 ^ 53) :
    (i < 10 → (zeroFill i).length = 2 ∧ (zeroFill i).data.head? = some '0' ∧
        (zeroFill i).data = ['0', Nat.digitChar i]) ∧
    (10 ≤ i → zeroFill i = decimalRepr i ∧ (zeroFill i).data.head? ≠ some '0') := by
  constructor
  · intro h
    rw [zeroFill_small i h]
    exact ⟨rfl, rfl, rfl⟩
  · intro h
    rw [zeroFill_large i h hs]
    exact ⟨rfl, decimalRepr_head i (by omega)⟩

/-- Instances of amended C3 at `i = 7` and at the largest safe integer `2^53 - 1`. -/
theorem zeroFill_padding_witness :
    ((zeroFill 7).length = 2 ∧ (zeroFill 7).data.head? = some '0' ∧
        (zeroFill 7).data = ['0', Nat.digitChar 7]) ∧
    (zeroFill 9007199254740991 = decimalRepr 9007199254740991 ∧
      (zeroFill 9007199254740991).data.head? ≠ some '0') :=
  ⟨(zeroFill_padding 7 (by decide)).1 (by decide),
    (zeroFill_padding 9007199254740991 (by decide)).2 (by decide)⟩

/-- C10, as stated, fails: the digits of `zeroFill (2^60)` read as the decimal
1152921504606847000, which is not `2^60 = 1152921504606846976`, and `zeroFill (10^21)`
is `1e+21`, which is no string of decimal digits. -/
theorem zeroFill_parse_counterexample :
    IsNumber (2 ^ 60) ∧
    parseDecimal (zeroFill (2 ^ 60)) = some 1152921504606847000 ∧
    parseDecimal (zeroFill (2 ^ 60)) ≠ some (2 ^ 60) ∧
    IsNumber (10 ^ 21) ∧
    parseDecimal (zeroFill (10 ^ 21)) = none :=
  ⟨isNumber_two_pow_sixty, by decide, by decide, isNumber_ten_pow_twenty_one, by decide⟩

/-- C10, amended: `zeroFill` loses no information. For every non-negative integer `i`
below `2^53`, reading the digits of `zeroFill i` as a decimal number gives back `i`, and
for `i < 10` the second character is the digit of `i`. For every non-negative integer
Number `i`, the decimal that `zeroFill i` denotes rounds to the Number `i`; therefore
`zeroFill` is injective on the non-negative integer Numbers. -/
theorem zeroFill_parse_injective :
    (∀ i : Nat, i < 2 ^ 53 → parseDecimal (zeroFill i) = some i) ∧
    (∀ i : Nat, i < 10 → (zeroFill i).data.get? 1 = some (Nat.digitChar i)) ∧
    (∀ i : Nat, IsNumber i → toNumber (readNumber (zeroFill i)) = i) ∧
    (∀ a b : Nat, IsNumber a → IsNumber b → zeroFill a = zeroFill b → a = b) := by
  have hread : ∀ i : Nat, IsNumber i → toNumber (readNumber (zeroFill i)) = i := by
    intro i hi
    rw [readNumber_zeroFill]
    exact toNumber_shortestDecimal i hi.1
  refine ⟨parseDecimal_zeroFill, ?_, hread, ?_⟩
  · intro i h
    rw [zeroFill_small i h]
    rfl
  · intro a b ha hb hab
    have h := hread a ha
    rw [hab, hread b hb] at h
    exact h.symm

/-- Instances of amended C10: the second character of `04` is `4`, the digits of
`zeroFill (2^53 - 1)` read back exactly, and `zeroFill (2^60)` rounds back to `2^60`. -/
theorem zeroFill_parse_injective_witness :
    (zeroFill 4).data.get? 1 = some (Nat.digitChar 4) ∧
    parseDecimal (zeroFill 9007199254740991) = some 9007199254740991 ∧
    toNumber (readNumber (zeroFill (2 ^ 60))) = 2 ^ 60 :=
  ⟨zeroFill_parse_injective.2.1 4 (by decide),
    zeroFill_parse_injective.1 9007199254740991 (by decide),
    zeroFill_parse_injective.2.2.1 (2 ^ 60) isNumber_two_pow_sixty⟩
/-! ## `now` -/

theorem twoDigits_shape (n : Nat) (h : n < 100) :
    (twoDigits n).length = 2 ∧ (twoDigits n).data.all Char.isDigit = true := by
  refine ⟨rfl, ?_⟩
  simp only [twoDigits, List.all_cons, List.all_nil, Bool.and_true, Bool.and_eq_true]
  exact ⟨digitChar_isDigit _ (by omega), digitChar_isDigit _ (by omega)⟩

/-- C5: for every valid local clock reading (month index 0..11, day 1..31, hour 0..23,
minute 0..59) each of the fields month, date, hour and minute of the record returned by
`now` is a string of exactly two characters, both decimal digits. -/
theorem now_fields_two_digits (d : LocalTime) (hv : d.Valid) :
    ∀ k ∈ ["month", "date", "hour", "minute"],
      ∃ s : String, (now d).get? k = some (JSValue.str s) ∧ s.length = 2 ∧
        s.data.all Char.isDigit = true := by
  obtain ⟨hm, _, hd, hh, hmin⟩ := hv
  intro k hk
  simp only [List.mem_cons, List.mem_singleton, List.not_mem_nil, or_false] at hk
  rcases hk with rfl | rfl | rfl | rfl
  · refine ⟨zeroFill (d.getMonth + 1), rfl, ?_⟩
    rw [zeroFill_twoDigits _ (by omega)]
    exact twoDigits_shape _ (by omega)
  · refine ⟨zeroFill d.getDate, rfl, ?_⟩
    rw [zeroFill_twoDigits _ (by omega)]
    exact twoDigits_shape _ (by omega)
  · refine ⟨zeroFill d.getHours, rfl, ?_⟩
    rw [zeroFill_twoDigits _ (by omega)]
    exact twoDigits_shape _ (by omega)
  · refine ⟨zeroFill d.getMinutes, rfl, ?_⟩
    rw [zeroFill_twoDigits _ (by omega)]
    exact twoDigits_shape _ (by omega)

/-- An instance of C5 at 2024-03-05 09:07:00.000 for the field `month`. -/
theorem now_fields_two_digits_witness :
    ∃ s : String, (now ⟨2024, 2, 5, 9, 7, 0, 0⟩).get? "month" = some (JSValue.str s) ∧
      s.length = 2 ∧ s.data.all Char.isDigit = true :=
  now_fields_two_digits ⟨2024, 2, 5, 9, 7, 0, 0⟩ (by decide) "month" (by decide)

/-- C6: the month field is 1-indexed: for a clock reading whose 0-based month index `m`
is in 0..11 the month field of `now` is the two-digit zero-padded decimal of `m + 1`;
January (`m = 0`) gives `01`, December (`m = 11`) gives `12`, and the field is never `00`. -/
theorem now_month_one_indexed (d : LocalTime) (hm : d.getMonth ≤ 11) :
    (now d).get? "month" = some (JSValue.str (twoDigits (d.getMonth + 1))) ∧
    parseDecimal (twoDigits (d.getMonth + 1)) = some (d.getMonth + 1) ∧
    (d.getMonth = 0 → (now d).get? "month" = some (JSValue.str "01")) ∧
    (d.getMonth = 11 → (now d).get? "month" = some (JSValue.str "12")) ∧
    (now d).get? "month" ≠ some (JSValue.str "00") := by
  have hget : (now d).get? "month" = some (JSValue.str (zeroFill (d.getMonth + 1))) := rfl
  have hz : zeroFill (d.getMonth + 1) = twoDigits (d.getMonth + 1) :=
    zeroFill_twoDigits _ (by omega)
  have hp : parseDecimal (twoDigits (d.getMonth + 1)) = some (d.getMonth + 1) := by
    generalize d.getMonth = m at hm
    interval_cases m <;> decide
  refine ⟨by rw [hget, hz], hp, ?_, ?_, ?_⟩
  · intro h0
    rw [hget, h0]
    rfl
  · intro h11
    rw [hget, h11]
    rfl
  · rw [hget, hz]
    intro hc
    have heq : twoDigits (d.getMonth + 1) = "00" := JSValue.str.inj (Option.some.inj hc)
    rw [heq] at hp
    have : (0 : Nat) = d.getMonth + 1 := Option.some.inj ((by decide : parseDecimal "00" = some 0).symm.trans hp)
    omega

/-- An instance of C6 in December. -/
theorem now_month_one_indexed_witness :
    (now ⟨2024, 11, 25, 18, 30, 0, 0⟩).get? "month" = some (JSValue.str "12") :=
  (now_month_one_indexed ⟨2024, 11, 25, 18, 30, 0, 0⟩ (by decide)).2.2.2.1 rfl

/-! ## `JSON.stringify` on the record of `now` -/

theorem jsonEscapeChar_digit (c : Char) (h : c.isDigit = true) :
    jsonEscapeChar c = String.singleton c := by
  have hb : 48 ≤ c.toNat ∧ c.toNat ≤ 57 := by
    simp only [Char.isDigit, Bool.and_eq_true, decide_eq_true_eq] at h
    exact ⟨h.1, h.2⟩
  unfold jsonEscapeChar
  rw [if_neg (by rintro rfl; revert hb; decide), if_neg (by rintro rfl; revert hb; decide),
    if_neg (by rintro rfl; revert hb; decide), if_neg (by rintro rfl; revert hb; decide),
    if_neg (by rintro rfl; revert hb; decide), if_neg (by rintro rfl; revert hb; decide),
    if_neg (by rintro rfl; revert hb; decide), if_neg (by omega)]

theorem jsonEscapeChar_numberChar (c : Char) (h : IsNumberChar c) :
    jsonEscapeChar c = String.singleton c := by
  rcases h with h | rfl | rfl | rfl
  · exact jsonEscapeChar_digit c h
  · decide
  · decide
  · decide

theorem join_singletons (l : List Char) (acc : String) :
    List.foldl (fun r s => r ++ s) acc (l.map String.singleton) = acc ++ String.mk l := by
  induction l generalizing acc with
  | nil =>
    apply String.ext
    simp [String.data_append]
  | cons c t ih =>
    rw [List.map_cons, List.foldl_cons, ih]
    apply String.ext
    simp [String.data_append, String.singleton]

theorem quoteJSONString_numberChars (s : String) (h : ∀ c ∈ s.data, IsNumberChar c) :
    quoteJSONString s = "\x22" ++ s ++ "\x22" := by
  have hmap : s.data.map jsonEscapeChar = s.data.map String.singleton := by
    apply List.map_congr_left
    intro c hc
    exact jsonEscapeChar_numberChar c (h c hc)
  unfold quoteJSONString
  rw [hmap, String.join, join_singletons]
  apply String.ext
  simp [String.data_append]

theorem stringify_now (d : LocalTime) :
    JSON.stringify (now d) =
      "\x7b\x22year\x22:" ++ toString d.getFullYear ++
      ",\x22month\x22:\x22" ++ zeroFill (d.getMonth + 1) ++
      "\x22,\x22date\x22:\x22" ++ zeroFill d.getDate ++
      "\x22,\x22hour\x22:\x22" ++ zeroFill d.getHours ++
      "\x22,\x22minute\x22:\x22" ++ zeroFill d.getMinutes ++ "\x22\x7d" := by
  simp only [JSON.stringify, now, List.map, serializeJSONProperty,
    quoteJSONString_numberChars _ (zeroFill_chars _), String.intercalate, String.intercalate.go]
  rw [(by decide : quoteJSONString "year" = "\x22year\x22"),
    (by decide : quoteJSONString "month" = "\x22month\x22"),
    (by decide : quoteJSONString "date" = "\x22date\x22"),
    (by decide : quoteJSONString "hour" = "\x22hour\x22"),
    (by decide : quoteJSONString "minute" = "\x22minute\x22")]
  apply String.ext
  simp [String.data_append]

theorem digits_length_eq_four (n : Nat) :
    (Nat.digits 10 n).length = 4 ↔ 1000 ≤ n ∧ n ≤ 9999 := by
  by_cases h0 : n = 0
  · subst h0
    simp
  have hlt : n < 10 ^ (Nat.digits 10 n).length := Nat.lt_base_pow_length_digits (by decide)
  have hle : 10 ^ (Nat.digits 10 n).length ≤ 10 * n :=
    Nat.base_pow_length_digits_le 10 n (by decide) h0
  generalize (Nat.digits 10 n).length = k at hlt hle
  constructor
  · rintro rfl
    omega
  · rintro ⟨h1, h2⟩
    by_contra hk
    rcases Nat.lt_or_gt_of_ne hk with h | h
    · have : 10 ^ k ≤ 10 ^ 3 := Nat.pow_le_pow_right (by decide) (by omega)
      omega
    · have : 10 ^ 5 ≤ 10 ^ k := Nat.pow_le_pow_right (by decide) (by omega)
      omega

theorem isFourDigit_iff (y : Int) : isFourDigit y = true ↔ 1000 ≤ y ∧ y ≤ 9999 := by
  cases y with
  | ofNat n =>
    have hs : toString (Int.ofNat n) = toString n := rfl
    by_cases h0 : n = 0
    · subst h0
      constructor
      · intro h
        revert h
        decide
      · rintro ⟨h, _⟩
        simp at h
    · have hr : toString n = decimalRepr n := toString_eq_decimalRepr n (by omega)
      have hall := decimalRepr_all_isDigit n
      have hlen : (decimalRepr n).data.length = (Nat.digits 10 n).length := by
        simp [decimalRepr]
      have hiff : isFourDigit (Int.ofNat n) = true ↔ (Nat.digits 10 n).length = 4 := by
        simp only [isFourDigit, hs, hr, hall, hlen, Bool.and_true, beq_iff_eq]
      rw [hiff, digits_length_eq_four, Int.ofNat_eq_coe]
      omega
  | negSucc m =>
    have hs : toString (Int.negSucc m) = "-" ++ toString (m + 1) := rfl
    constructor
    · intro h
      simp only [isFourDigit, hs, String.data_append, Bool.and_eq_true, List.all_eq_true] at h
      exact absurd (h.2 '-' (by simp)) (by decide)
    · rintro ⟨h, _⟩
      have := Int.negSucc_lt_zero m
      omega

/-! ## The request handler -/

theorem handler_hit (req : Request) (d : LocalTime) (h : req.url = "/api/currenttime") :
    handler req d =
      { statusCode := 200,
        headers := [("Content-Type", "application/json")],
        body := JSON.stringify (now d) ++ "\n" } := by
  simp [handler, h]

theorem handler_miss (req : Request) (d : LocalTime) (h : req.url ≠ "/api/currenttime") :
    handler req d = { statusCode := 404, headers := [], body := "" } := by
  simp [handler, h]

theorem query_target_ne (q : String) : "/api/currenttime?" ++ q ≠ "/api/currenttime" := by
  intro h
  have hl := congrArg String.length h
  rw [String.length_append] at hl
  have h1 : "/api/currenttime?".length = 17 := by decide
  have h2 : "/api/currenttime".length = 16 := by decide
  omega

/-- C1: for every request whose request target `req.url` is exactly `/api/currenttime`,
whatever its method, headers and body, and for every clock reading, the handler answers
with status 200, the single header `Content-Type: application/json`, and a body that is
the JSON serialization of an object with exactly the keys year, month, date, hour, minute
followed by one newline; the serialization is the text
`{"year":Y,"month":"MM","date":"DD","hour":"HH","minute":"mm"}`, which ends in a brace,
so the newline appended to it is the only trailing one. -/
theorem handler_currenttime_ok (req : Request) (d : LocalTime)
    (h : req.url = "/api/currenttime") :
    (handler req d).statusCode = 200 ∧
    (handler req d).headers = [("Content-Type", "application/json")] ∧
    (handler req d).body = JSON.stringify (now d) ++ "\n" ∧
    (now d).map Prod.fst = ["year", "month", "date", "hour", "minute"] ∧
    JSON.stringify (now d) =
      "\x7b\x22year\x22:" ++ toString d.getFullYear ++
      ",\x22month\x22:\x22" ++ zeroFill (d.getMonth + 1) ++
      "\x22,\x22date\x22:\x22" ++ zeroFill d.getDate ++
      "\x22,\x22hour\x22:\x22" ++ zeroFill d.getHours ++
      "\x22,\x22minute\x22:\x22" ++ zeroFill d.getMinutes ++ "\x22\x7d" := by
  rw [handler_hit req d h]
  exact ⟨rfl, rfl, rfl, rfl, stringify_now d⟩

/-- An instance of C1: a POST with a header and a body, at 1999-12-31 23:59:58.123. -/
theorem handler_currenttime_ok_witness :
    (handler ⟨"POST", "/api/currenttime", [("Accept", "text/html")], "x=1"⟩
        ⟨1999, 11, 31, 23, 59, 58, 123⟩).statusCode = 200 ∧
    (handler ⟨"POST", "/api/currenttime", [("Accept", "text/html")], "x=1"⟩
        ⟨1999, 11, 31, 23, 59, 58, 123⟩).body =
      JSON.stringify (now ⟨1999, 11, 31, 23, 59, 58, 123⟩) ++ "\n" :=
  have w := handler_currenttime_ok
    ⟨"POST", "/api/currenttime", [("Accept", "text/html")], "x=1"⟩
    ⟨1999, 11, 31, 23, 59, 58, 123⟩ rfl
  ⟨w.1, w.2.2.1⟩

/-- C2: for every request whose target is anything other than `/api/currenttime` the
handler answers with status 404, an empty body and no header at all (so no Content-Type);
and no request at any clock reading gets a status other than 200 or 404. -/
theorem handler_other_not_found (req : Request) (d : LocalTime)
    (h : req.url ≠ "/api/currenttime") :
    (handler req d).statusCode = 404 ∧ (handler req d).body = "" ∧
    (handler req d).headers = [] ∧
    ∀ (r : Request) (e : LocalTime),
      (handler r e).statusCode = 200 ∨ (handler r e).statusCode = 404 := by
  rw [handler_miss req d h]
  refine ⟨rfl, rfl, rfl, ?_⟩
  intro r e
  by_cases hr : r.url = "/api/currenttime"
  · left
    rw [handler_hit r e hr]
  · right
    rw [handler_miss r e hr]

/-- An instance of C2: the trailing-slash target `/api/currenttime/`. -/
theorem handler_other_not_found_witness :
    (handler ⟨"GET", "/api/currenttime/", [], ""⟩ ⟨2024, 2, 5, 9, 7, 0, 0⟩).statusCode = 404 ∧
    (handler ⟨"GET", "/api/currenttime/", [], ""⟩ ⟨2024, 2, 5, 9, 7, 0, 0⟩).body = "" ∧
    (handler ⟨"GET", "/api/currenttime/", [], ""⟩ ⟨2024, 2, 5, 9, 7, 0, 0⟩).headers = [] :=
  have w := handler_other_not_found ⟨"GET", "/api/currenttime/", [], ""⟩
    ⟨2024, 2, 5, 9, 7, 0, 0⟩ (by decide)
  ⟨w.1, w.2.1, w.2.2.1⟩

/-- C4: when the local clock reads 2024-03-05 09:07 (month index 2), a request for
`/api/currenttime` gets status 200 and the byte-exact body
`{"year":2024,"month":"03","date":"05","hour":"09","minute":"07"}` followed by one
newline: keys in the order year, month, date, hour, minute, the year a bare integer and
the other four fields quoted strings. -/
theorem handler_2024_03_05_09_07 :
    handler ⟨"GET", "/api/currenttime", [], ""⟩ ⟨2024, 2, 5, 9, 7, 0, 0⟩ =
      { statusCode := 200,
        headers := [("Content-Type", "application/json")],
        body := "\x7b\x22year\x22:2024,\x22month\x22:\x2203\x22,\x22date\x22:\x2205\x22,\x22hour\x22:\x2209\x22,\x22minute\x22:\x2207\x22\x7d\n" } := by
  decide

/-- C7, as stated, fails: at the same clock reading the target `/api/currenttime?a=1`
gets 404 with an empty body while `/api/currenttime` gets 200. -/
theorem handler_query_counterexample :
    (handler ⟨"GET", "/api/currenttime?a=1", [], ""⟩ ⟨2024, 2, 5, 9, 7, 0, 0⟩).statusCode = 404 ∧
    (handler ⟨"GET", "/api/currenttime?a=1", [], ""⟩ ⟨2024, 2, 5, 9, 7, 0, 0⟩).body = "" ∧
    (handler ⟨"GET", "/api/currenttime", [], ""⟩ ⟨2024, 2, 5, 9, 7, 0, 0⟩).statusCode = 200 ∧
    handler ⟨"GET", "/api/currenttime?a=1", [], ""⟩ ⟨2024, 2, 5, 9, 7, 0, 0⟩ ≠
      handler ⟨"GET", "/api/currenttime", [], ""⟩ ⟨2024, 2, 5, 9, 7, 0, 0⟩ := by
  decide

/-- C7, amended: the response depends on the request only through its target `req.url`
taken as a whole, query string included: two requests with the same target get the same
response at the same clock reading whatever their methods, headers and bodies, and for
every query string `q` the target `/api/currenttime?q` gets 404 with an empty body. -/
theorem handler_target_only (r₁ r₂ : Request) (d : LocalTime) (h : r₁.url = r₂.url) :
    handler r₁ d = handler r₂ d ∧
    ∀ q : String, handler { r₁ with url := "/api/currenttime?" ++ q } d =
      { statusCode := 404, headers := [], body := "" } := by
  refine ⟨by simp [handler, h], ?_⟩
  intro q
  exact handler_miss _ d (query_target_ne q)

/-- An instance of amended C7: a GET and a POST for the same target. -/
theorem handler_target_only_witness :
    handler ⟨"GET", "/api/currenttime", [], ""⟩ ⟨2024, 2, 5, 9, 7, 0, 0⟩ =
      handler ⟨"POST", "/api/currenttime", [("X-Q", "1")], "q"⟩ ⟨2024, 2, 5, 9, 7, 0, 0⟩ :=
  (handler_target_only ⟨"GET", "/api/currenttime", [], ""⟩
    ⟨"POST", "/api/currenttime", [("X-Q", "1")], "q"⟩ ⟨2024, 2, 5, 9, 7, 0, 0⟩ rfl).1

/-- C8, as stated, fails: when the clock reads the year 10000 the year field is the
integer 10000, serialized as five digits. -/
theorem year_five_digits_counterexample :
    (now ⟨10000, 0, 1, 0, 0, 0, 0⟩).get? "year" = some (JSValue.num 10000) ∧
    isFourDigit 10000 = false ∧
    (handler ⟨"GET", "/api/currenttime", [], ""⟩ ⟨10000, 0, 1, 0, 0, 0, 0⟩).body =
      "\x7b\x22year\x22:10000,\x22month\x22:\x2201\x22,\x22date\x22:\x2201\x22,\x22hour\x22:\x2200\x22,\x22minute\x22:\x2200\x22\x7d\n" := by
  decide

/-- C8, amended: for every clock reading the year field of the record is the integer
returned by `getFullYear` (a number, not a string), it is serialized bare and unpadded as
the first member of the body, and it prints as exactly four decimal digits if and only if
the clock's year lies in 1000..9999. -/
theorem now_year_integer (d : LocalTime) :
    (now d).get? "year" = some (JSValue.num d.getFullYear) ∧
    (∃ rest : String, JSON.stringify (now d) =
      "\x7b\x22year\x22:" ++ toString d.getFullYear ++ ",\x22month\x22:" ++ rest) ∧
    (isFourDigit d.getFullYear = true ↔ 1000 ≤ d.getFullYear ∧ d.getFullYear ≤ 9999) := by
  refine ⟨rfl, ?_, isFourDigit_iff d.getFullYear⟩
  refine ⟨"\x22" ++ zeroFill (d.getMonth + 1) ++
      "\x22,\x22date\x22:\x22" ++ zeroFill d.getDate ++
      "\x22,\x22hour\x22:\x22" ++ zeroFill d.getHours ++
      "\x22,\x22minute\x22:\x22" ++ zeroFill d.getMinutes ++ "\x22\x7d", ?_⟩
  rw [stringify_now d]
  apply String.ext
  simp [String.data_append]

/-- C9: for every request and any two clock readings that agree on local year, month,
day, hour and minute the handler produces identical responses (status, headers, body);
the response is a function of the request target and the minute-resolution clock only. -/
theorem handler_same_minute (r₁ r₂ : Request) (d e : LocalTime)
    (hu : r₁.url = r₂.url) (hs : SameMinute d e) : handler r₁ d = handler r₂ e := by
  obtain ⟨hy, hm, hd, hh, hmin⟩ := hs
  have hnow : now d = now e := by
    simp only [now, hy, hm, hd, hh, hmin]
  simp only [handler, hu, hnow]

/-- An instance of C9: two readings of the minute 2024-03-05 09:07, 59.999 s apart. -/
theorem handler_same_minute_witness :
    handler ⟨"GET", "/api/currenttime", [], ""⟩ ⟨2024, 2, 5, 9, 7, 0, 0⟩ =
      handler ⟨"GET", "/api/currenttime", [], ""⟩ ⟨2024, 2, 5, 9, 7, 59, 999⟩ :=
  handler_same_minute _ _ _ _ rfl (by decide)

end TimeServer

